import Mathlib

/-!
Verification development for the eve-value repository: a client-side value
calculator that fetches an ISK-per-PLEX reference rate, aggregates candidate
prices (min / avg / median), derives per-offer value metrics, and marks the
best row per metric.  All numeric values are modelled as rationals (`ℚ`);
JavaScript non-finite results (`NaN`, `Infinity`) are modelled by `Option ℚ`
with `none` standing for a non-finite value, and fallible fetches return
`Except String`.
-/

namespace EveValue

/-- Epsilon used by `indexOfStrictMin` in the source (`1e-9`). -/
def eps : ℚ := 1 / 1000000000

/-- Loop of `indexOfStrictMin` (src/script.js lines 41-48, src/unnamed/part_005
lines 43-54): walks the remaining elements carrying the running index `i`,
the current best index and best value, replacing the best only when the
candidate is below the best by more than `eps`. -/
def iosmAux : List ℚ → Nat → Nat → ℚ → Nat × ℚ
  | [], _, bestIdx, bestVal => (bestIdx, bestVal)
  | v :: rest, i, bestIdx, bestVal =>
    if v < bestVal - eps then iosmAux rest (i + 1) i v
    else iosmAux rest (i + 1) bestIdx bestVal

/-- `indexOfStrictMin` from src/script.js lines 41-48: `bestIdx` starts at 0
and `bestVal` at `arr[0]`; on the empty array the JS loop body never runs and
the function returns the initial `bestIdx = 0`. -/
def indexOfStrictMin : List ℚ → Nat
  | [] => 0
  | a :: rest => (iosmAux rest 1 0 a).1

/-- `Math.min(...l)` for a spread list; `none` models the `Infinity` that
JavaScript returns for an empty argument list. -/
def mathMin (l : List ℚ) : Option ℚ :=
  match l with
  | [] => none
  | a :: rest => some (rest.foldl min a)

/-- `median` from src/unnamed/part_003 lines 46-51: on an empty array the JS
function returns `NaN` (modelled as `none`); otherwise it sorts a copy
ascending, takes `m = floor(length / 2)`, and returns the middle element for
odd length or the mean of the two middle elements for even length. -/
def median (arr : List ℚ) : Option ℚ :=
  if arr.isEmpty then none
  else
    let a := List.insertionSort (· ≤ ·) arr
    let m := a.length / 2
    if a.length % 2 = 1 then some (a.getD m 0)
    else some ((a.getD (m - 1) 0 + a.getD m 0) / 2)

/-- Aggregation dispatch from src/unnamed/part_003 lines 96-104: `min` uses
`Math.min(...prices)`, `avg` uses `reduce((a,b)=>a+b,0)/length` (NaN on an
empty list, modelled as `none`), anything else falls through to `median`. -/
def aggregate (prices : List ℚ) (agg : String) : Option ℚ :=
  if agg = "min" then mathMin prices
  else if agg = "avg" then
    if prices.length = 0 then none
    else some (prices.sum / (prices.length : ℚ))
  else median prices

/-- A cash pack as read from packs.json: `sale_price_usd` may be absent. -/
structure Pack where
  name : String
  price_usd : ℚ
  sale_price_usd : Option ℚ
  plex_amount : ℚ
deriving DecidableEq, Repr

/-- Effective cash price from src/script.js line 121:
`p.sale_price_usd ?? p.price_usd` — the sale price is used whenever it is
present (not null/undefined), including when it is 0. -/
def salePrice (sale : Option ℚ) (regular : ℚ) : ℚ :=
  match sale with
  | some s => s
  | none => regular

/-- Effective cash price from src/unnamed/part_008 line 115:
`p.sale_price_usd != null ? p.sale_price_usd : p.price_usd`. -/
def salePrice008 (sale : Option ℚ) (regular : ℚ) : ℚ :=
  if sale.isSome then sale.getD 0 else regular

/-- One computed row of the value table. -/
structure ValueRow where
  price : ℚ
  perPLEX : ℚ
  perBillion : ℚ
deriving DecidableEq, Repr

/-- Per-pack metric computation from src/script.js lines 120-125 (and
src/unnamed/part_007 lines 271-277): `price = sale ?? regular`,
`perPLEX = price / plex_amount`,
`perBillion = price / (plex_amount * plexISK) * 1_000_000_000`. -/
def valueRow (p : Pack) (plexISK : ℚ) : ValueRow :=
  let price := salePrice p.sale_price_usd p.price_usd
  let perPLEX := price / p.plex_amount
  let dollarPerISK := price / (p.plex_amount * plexISK)
  let perBillion := dollarPerISK * 1000000000
  ⟨price, perPLEX, perBillion⟩

/-- The rows of the value table (src/script.js lines 120-126). -/
def packRows (packs : List Pack) (plexISK : ℚ) : List ValueRow :=
  packs.map (fun p => valueRow p plexISK)

/-- Outcome of a render pass: either a status message written into the table
body, or the computed rows together with the per-row best flags for the two
metric columns. -/
inductive RenderResult where
  | status (msg : String)
  | table (rows : List ValueRow) (marksA marksB : List Bool)
deriving DecidableEq, Repr

/-- Best flags of the A metric column of a render outcome (empty when a
status message was shown instead of a table). -/
def RenderResult.marksA : RenderResult → List Bool
  | .status _ => []
  | .table _ mA _ => mA

/-- Best flags of the B metric column of a render outcome. -/
def RenderResult.marksB : RenderResult → List Bool
  | .status _ => []
  | .table _ _ mB => mB

/-- `renderValueTable` from src/script.js lines 115-156: early-returns a
status when no packs are loaded or when `plexISK` is still unset (the JS
guard `!plexISK` is also true for the value 0, modelled explicitly); then
computes the rows, picks one best index per metric with `indexOfStrictMin`,
and flags row `i` best exactly when `i === bestIdx`. -/
def renderValueTable (packs : List Pack) (plexISK : Option ℚ) : RenderResult :=
  if packs.isEmpty then .status "No packs loaded."
  else
    match plexISK with
    | none => .status "Waiting for PLEX price…"
    | some r =>
      if r = 0 then .status "Waiting for PLEX price…"
      else
        let rows := packRows packs r
        let bestA := indexOfStrictMin (rows.map (·.perPLEX))
        let bestB := indexOfStrictMin (rows.map (·.perBillion))
        .table rows
          ((List.range rows.length).map (fun i => i == bestA))
          ((List.range rows.length).map (fun i => i == bestB))

/-- One computed row of the part_000 value table (`cashPerISK` carries no
billion scale factor in that variant). -/
structure Row000 where
  price : ℚ
  perPLEX : ℚ
  cashPerISK : ℚ
deriving DecidableEq, Repr

/-- Per-pack metric computation from src/unnamed/part_000 lines 95-100. -/
def row000 (p : Pack) (plexISK : ℚ) : Row000 :=
  let price := salePrice p.sale_price_usd p.price_usd
  let perPLEX := price / p.plex_amount
  let cashPerISK := price / (p.plex_amount * plexISK)
  ⟨price, perPLEX, cashPerISK⟩

/-- Best flags of src/unnamed/part_000 lines 102-107: every row whose metric
is within `1e-12` of `Math.min` over the column is flagged best.  When the
column is empty `Math.min()` is `Infinity` (modelled `none`) and the
comparison `|v - Infinity| < 1e-12` is false for every row. -/
def bandMarks (vals : List ℚ) : List Bool :=
  match mathMin vals with
  | none => vals.map (fun _ => false)
  | some m => vals.map (fun v => decide (|v - m| < 1 / 1000000000000))

/-- `computeRows` from src/unnamed/part_000 lines 91-118: the same guards as
`renderValueTable`, then band-style best marking with tolerance `1e-12`. -/
def computeRows000 (packs : List Pack) (plexISK : Option ℚ) : RenderResult :=
  if packs.isEmpty then .status "No packs loaded."
  else
    match plexISK with
    | none => .status "Waiting for PLEX price…"
    | some r =>
      if r = 0 then .status "Waiting for PLEX price…"
      else
        let rows := (packs.map (fun p => row000 p r))
        .table (rows.map (fun q => ⟨q.price, q.perPLEX, q.cashPerISK⟩))
          (bandMarks (rows.map (·.perPLEX)))
          (bandMarks (rows.map (·.cashPerISK)))

/-- Chosen PLEX price from src/script.js lines 75-84: use `average_price`
when it is finite and positive, else `adjusted_price` when finite and
positive, else `NaN`; a missing or non-finite JSON field makes `Number(...)`
produce `NaN`, modelled as `none`.  The final guard throws when the chosen
value is non-finite or not positive. -/
def fetchPLEXFromESIPrices (avg adj : Option ℚ) : Except String ℚ :=
  let chosen : Option ℚ :=
    match avg with
    | some a =>
      if 0 < a then some a
      else
        match adj with
        | some b => if 0 < b then some b else none
        | none => none
    | none =>
      match adj with
      | some b => if 0 < b then some b else none
      | none => none
  match chosen with
  | none => Except.error "PLEX price missing or zero in ESI prices."
  | some c =>
    if c ≤ 0 then Except.error "PLEX price missing or zero in ESI prices."
    else Except.ok c

/-- Sell-side statistics object of the Fuzzwork aggregates feed
(`data[typeid].sell` in src/unnamed/part_003 lines 197-209). -/
structure SellStats where
  median : ℚ
  avg : ℚ
  min : ℚ
deriving DecidableEq, Repr

/-- `fetchPlexISK` from src/unnamed/part_003 lines 197-209 (the Fuzzwork
variant): `val` starts as `sell.median`, is replaced by `sell.avg` when the
source selector says `avg` and by `sell.min` when it says `min`, and is then
assigned to `plexISK` directly — this variant performs no positivity or
finiteness validation at all. -/
def fetchPlexISK (sell : SellStats) (source : String) : ℚ :=
  let val := sell.median
  let val := if source = "avg" then sell.avg else val
  let val := if source = "min" then sell.min else val
  val

/-- Aggregate-then-validate tail of `fetchPlexISK_ESI` in src/unnamed/part_003
lines 96-110: pick the aggregate, then throw unless it is finite and
strictly positive. -/
def fetchAggregateESI (prices : List ℚ) (agg : String) : Except String ℚ :=
  match aggregate prices agg with
  | none => Except.error "Price feed returned zero or invalid value after aggregation."
  | some v =>
    if v ≤ 0 then Except.error "Price feed returned zero or invalid value after aggregation."
    else Except.ok v

/-- One network response in the ESI pagination loop: a 404, a non-404 HTTP
failure, or a parsed page whose `X-Pages` header may tighten the page cap
and whose orders carry raw prices. -/
inductive PageResult where
  | notFound : PageResult
  | httpError (status : Nat) : PageResult
  | ok (xPages : Option Nat) (orders : List ℚ) : PageResult
deriving DecidableEq, Repr

/-- Pagination loop of `fetchPlexFromESI_MinSell` in src/unnamed/part_002
lines 104-141: pages are requested while `page <= pagesCap` (cap starts at 15
and is lowered by `X-Pages`); a 404 breaks out keeping collected prices, any
other non-ok response throws, an empty page breaks, and valid (positive)
prices of each page are appended to the accumulator. -/
def fetchLoop : List PageResult → Nat → Nat → List ℚ → Except String (List ℚ)
  | [], _, _, acc => Except.ok acc
  | pr :: rest, page, cap, acc =>
    if cap < page then Except.ok acc
    else
      match pr with
      | .notFound => Except.ok acc
      | .httpError s =>
        Except.error ("ESI orders HTTP " ++ toString s ++ " (page " ++ toString page ++ ")")
      | .ok xp orders =>
        let cap := match xp with | some n => Nat.min cap n | none => cap
        if orders.isEmpty then Except.ok acc
        else fetchLoop rest (page + 1) cap (acc ++ orders.filter (fun p => 0 < p))

/-- `fetchPlexFromESI_MinSell` from src/unnamed/part_002 lines 97-152: run
the pagination loop from page 1 with cap 15, throw when no valid price was
collected, otherwise take `Math.min` of the collected prices. -/
def fetchPlexFromESI_MinSell (pages : List PageResult) : Except String ℚ :=
  match fetchLoop pages 1 15 [] with
  | .error e => Except.error e
  | .ok prices =>
    if prices.isEmpty then
      Except.error "No valid sell prices returned by ESI (prices array is empty)."
    else
      match mathMin prices with
      | none => Except.error "No valid sell prices returned by ESI (prices array is empty)."
      | some m => Except.ok m

/-- Page-2-onwards collection of `fetchPlexISK_ESI` in src/unnamed/part_003
lines 73-89: every remaining page is fetched under `Promise.all`, each
handler throwing on a non-ok response — so one failing later page rejects
the whole batch and the prices collected so far are discarded. -/
def allPages : List (Except String (List ℚ)) → Except String (List ℚ)
  | [] => Except.ok []
  | Except.error e :: _ => Except.error e
  | Except.ok l :: rest =>
    match allPages rest with
    | Except.error e => Except.error e
    | Except.ok ls => Except.ok (l.filter (fun v => 0 < v) ++ ls)

/-- Parse the leading number out of the first digit run of a character list;
this models the JS regex `String(label).match(/(\d+)/)`, which captures the
first maximal run of decimal digits anywhere in the string. -/
def firstDigitRun : List Char → Option Nat
  | [] => none
  | c :: rest =>
    if c.isDigit then
      some ((List.takeWhile Char.isDigit (c :: rest)).foldl
        (fun acc d => acc * 10 + (d.toNat - 48)) 0)
    else firstDigitRun rest

/-- `monthsFromLabel` from src/script.js lines 49-53: the first digit run of
the label, or 1 when the label contains no digit. -/
def monthsFromLabel (label : String) : ℚ :=
  match firstDigitRun label.toList with
  | some n => (n : ℚ)
  | none => 1

/-- JavaScript division where the divisor may be zero: `a / 0` is `Infinity`
or `NaN` in JS (never a finite number), modelled as `none`. -/
def jsDiv (a b : ℚ) : Option ℚ :=
  if b = 0 then none else some (a / b)

/-- A cash pack as consumed by src/unnamed/part_006: the quantity may sit in
`plex_amount` or `plex` and either may be absent. -/
structure Pack6 where
  price_usd : ℚ
  sale_price_usd : Option ℚ
  plex_amount : Option ℚ
  plex : Option ℚ
deriving DecidableEq, Repr

/-- Quantity from src/unnamed/part_006 line 92:
`Number(p.plex_amount || p.plex || 0)` — the truthiness chain skips a field
that is absent or 0 and bottoms out at 0. -/
def qty6 (p : Pack6) : ℚ :=
  match p.plex_amount with
  | some q =>
    if q ≠ 0 then q
    else
      match p.plex with
      | some q2 => if q2 ≠ 0 then q2 else 0
      | none => 0
  | none =>
    match p.plex with
    | some q2 => if q2 ≠ 0 then q2 else 0
    | none => 0

/-- One computed row of the part_006 packs table; the metric fields are
`Option ℚ` because the unguarded JS divisions produce `Infinity`/`NaN` when
the quantity (or `qty * plexISK`) is zero. -/
structure Row6 where
  price : ℚ
  qty : ℚ
  usdPerPLEX : Option ℚ
  usdPerBillion : Option ℚ
deriving DecidableEq, Repr

/-- Row computation of `renderPacks` in src/unnamed/part_006 lines 90-103:
`usdPerPLEX = price / qty` and `usdPerBillion = price * 1e9 / (qty * plexISK)`
with no zero-divisor guard; every pack yields a row, none is excluded. -/
def renderPacksRows (packs : List Pack6) (plexISK : ℚ) : List Row6 :=
  packs.map fun p =>
    let price := salePrice p.sale_price_usd p.price_usd
    let qty := qty6 p
    ⟨price, qty, jsDiv price qty, jsDiv (price * 1000000000) (qty * plexISK)⟩

/-- A subscription plan row from omega.json as used by src/script.js. -/
structure Plan where
  label : String
  cash_usd : ℚ
  plex_cost : ℚ
deriving DecidableEq, Repr

/-- One computed row of the omega table of src/script.js lines 183-199;
`cashPerMonth` is `Option ℚ` because `cashUSD / months` is unguarded. -/
structure OmegaRow where
  months : ℚ
  cashPerMonth : Option ℚ
  plexExchangeTotalUSD : ℚ
deriving DecidableEq, Repr

/-- Row computation of `renderOmegaTable` in src/script.js lines 183-199:
`months = monthsFromLabel(label)`, `cashPerMonth = cash_usd / months`
(unguarded), `plexExchangeTotalUSD = plex_cost * bestDollarPerPLEX`; every
plan yields a row. -/
def omegaRows (plans : List Plan) (bestDollarPerPLEX : ℚ) : List OmegaRow :=
  plans.map fun p =>
    let months := monthsFromLabel p.label
    ⟨months, jsDiv p.cash_usd months, p.plex_cost * bestDollarPerPLEX⟩

/-!  Helper lemmas shared by the claim theorems. -/

lemma eps_pos : 0 < eps := by norm_num [eps]

lemma foldlMin_mem (rest : List ℚ) : ∀ a : ℚ, rest.foldl min a ∈ a :: rest := by
  induction rest with
  | nil => intro a; simp
  | cons b t ih =>
    intro a
    simp only [List.foldl_cons]
    rcases List.mem_cons.mp (ih (min a b)) with h1 | h1
    · rw [h1]
      rcases min_choice a b with hc | hc <;> rw [hc]
      · exact List.mem_cons_self _ _
      · exact List.mem_cons_of_mem _ (List.mem_cons_self _ _)
    · exact List.mem_cons_of_mem _ (List.mem_cons_of_mem _ h1)

lemma foldlMin_le (rest : List ℚ) : ∀ a x : ℚ, x ∈ a :: rest → rest.foldl min a ≤ x := by
  induction rest with
  | nil =>
    intro a x hx
    simp only [List.mem_singleton] at hx
    simp [hx]
  | cons b t ih =>
    intro a x hx
    simp only [List.foldl_cons]
    have hself : t.foldl min (min a b) ≤ min a b :=
      ih (min a b) (min a b) (List.mem_cons_self _ _)
    rcases List.mem_cons.mp hx with h1 | h1
    · rw [h1]
      exact le_trans hself (min_le_left _ _)
    · rcases List.mem_cons.mp h1 with h2 | h2
      · rw [h2]
        exact le_trans hself (min_le_right _ _)
      · exact ih (min a b) x (List.mem_cons_of_mem _ h2)

lemma mathMin_spec (l : List ℚ) (h : l ≠ []) :
    ∃ m, mathMin l = some m ∧ m ∈ l ∧ ∀ x ∈ l, m ≤ x := by
  match l, h with
  | a :: rest, _ =>
    exact ⟨rest.foldl min a, rfl, foldlMin_mem rest a, fun x hx => foldlMin_le rest a x hx⟩

lemma iosmAux_val_le (rest : List ℚ) :
    ∀ (i bI : Nat) (bV : ℚ), (iosmAux rest i bI bV).2 ≤ bV := by
  induction rest with
  | nil => intro i bI bV; simp [iosmAux]
  | cons v t ih =>
    intro i bI bV
    simp only [iosmAux]
    split
    · next h =>
      exact le_trans (ih (i + 1) i v)
        (le_of_lt (lt_of_lt_of_le h (sub_le_self _ (le_of_lt eps_pos))))
    · exact ih (i + 1) bI bV

lemma iosmAux_le_mem (rest : List ℚ) :
    ∀ (i bI : Nat) (bV : ℚ) (x : ℚ), x ∈ rest → (iosmAux rest i bI bV).2 ≤ x + eps := by
  induction rest with
  | nil => intro i bI bV x hx; simp at hx
  | cons v t ih =>
    intro i bI bV x hx
    simp only [iosmAux]
    split
    · next h =>
      rcases List.mem_cons.mp hx with h1 | h1
      · rw [h1]
        exact le_trans (iosmAux_val_le t (i + 1) i v)
          (le_add_of_nonneg_right (le_of_lt eps_pos))
      · exact ih (i + 1) i v x h1
    · next h =>
      rcases List.mem_cons.mp hx with h1 | h1
      · rw [h1]
        have hge : bV - eps ≤ v := le_of_not_lt h
        have : bV ≤ v + eps := by linarith
        exact le_trans (iosmAux_val_le t (i + 1) bI bV) this
      · exact ih (i + 1) bI bV x h1

lemma iosmAux_prov (rest : List ℚ) :
    ∀ (i bI : Nat) (bV : ℚ),
      iosmAux rest i bI bV = (bI, bV) ∨
      ∃ k, k < rest.length ∧ (iosmAux rest i bI bV).1 = i + k ∧
        (iosmAux rest i bI bV).2 = rest.getD k 0 := by
  induction rest with
  | nil => intro i bI bV; left; rfl
  | cons v t ih =>
    intro i bI bV
    simp only [iosmAux]
    split
    · next h =>
      right
      rcases ih (i + 1) i v with h1 | h1
      · exact ⟨0, by simp, by simp [h1], by simp [h1]⟩
      · obtain ⟨k, hk, hidx, hval⟩ := h1
        refine ⟨k + 1, by simpa using Nat.succ_lt_succ hk, ?_, ?_⟩
        · rw [hidx]; omega
        · simpa using hval
    · next h =>
      rcases ih (i + 1) bI bV with h1 | h1
      · left; exact h1
      · right
        obtain ⟨k, hk, hidx, hval⟩ := h1
        refine ⟨k + 1, by simpa using Nat.succ_lt_succ hk, ?_, ?_⟩
        · rw [hidx]; omega
        · simpa using hval

lemma indexOfStrictMin_spec (arr : List ℚ) (h : arr ≠ []) :
    indexOfStrictMin arr < arr.length ∧
    ∀ j, j < arr.length → arr.getD (indexOfStrictMin arr) 0 ≤ arr.getD j 0 + eps := by
  match arr, h with
  | a :: rest, _ =>
    have hval_le := iosmAux_val_le rest 1 0 a
    have hle_mem := iosmAux_le_mem rest 1 0 a
    have hbound : ∀ j, j < (a :: rest).length →
        (iosmAux rest 1 0 a).2 ≤ (a :: rest).getD j 0 + eps := by
      intro j hj
      match j with
      | 0 =>
        simpa using le_trans hval_le (le_add_of_nonneg_right (le_of_lt eps_pos))
      | k + 1 =>
        have hk : k < rest.length := by simpa using Nat.lt_of_succ_lt_succ hj
        have hmem : rest.getD k 0 ∈ rest := by
          rw [List.getD_eq_getElem rest 0 hk]
          exact List.getElem_mem hk
        simpa using hle_mem (rest.getD k 0) hmem
    rcases iosmAux_prov rest 1 0 a with h1 | h1
    · have hidx : indexOfStrictMin (a :: rest) = 0 := by
        simp [indexOfStrictMin, h1]
      have hval : (iosmAux rest 1 0 a).2 = a := by rw [h1]
      constructor
      · rw [hidx]; simp
      · intro j hj
        rw [hidx]
        have hb := hbound j hj
        rw [hval] at hb
        simpa using hb
    · obtain ⟨k, hk, hidx, hval⟩ := h1
      have hidx' : indexOfStrictMin (a :: rest) = 1 + k := by
        simpa [indexOfStrictMin] using hidx
      constructor
      · rw [hidx']; simp; omega
      · intro j hj
        rw [hidx']
        have hgd : (a :: rest).getD (1 + k) 0 = rest.getD k 0 := by
          have : 1 + k = k + 1 := by omega
          rw [this]
          simp
        rw [hgd, ← hval]
        exact hbound j hj

lemma count_range_marks (n k : Nat) :
    (((List.range n).map (fun i => i == k)).count true) = if k < n then 1 else 0 := by
  induction n with
  | zero => simp
  | succ n ih =>
    rw [List.range_succ, List.map_append, List.count_append, ih]
    by_cases h : k < n
    · have hne : (n == k) = false := by
        simp only [beq_eq_false_iff_ne]
        omega
      have : k < n + 1 := by omega
      simp [h, this, hne]
    · by_cases h2 : n = k
      · have : k < n + 1 := by omega
        simp [h, h2, this]
      · have hne : (n == k) = false := by
          simp only [beq_eq_false_iff_ne]
          exact h2
        have : ¬ k < n + 1 := by omega
        simp [h, this, hne]

/-- C1: for every non-empty list of positive finite candidate prices, the
aggregation step returns under policy `min` the smallest element, under
policy `avg` the arithmetic mean (sum divided by count), and under `median`
the middle element of the sorted list for odd count and the average of the
two middle elements for even count. -/
theorem aggregate_policies_correct (l : List ℚ) (hne : l ≠ [])
    (hpos : ∀ x ∈ l, 0 < x) :
    (∃ m, aggregate l "min" = some m ∧ m ∈ l ∧ ∀ x ∈ l, m ≤ x) ∧
    aggregate l "avg" = some (l.sum / (l.length : ℚ)) ∧
    (∀ s : List ℚ, List.Sorted (· ≤ ·) s → l.Perm s →
      aggregate l "median" =
        some (if l.length % 2 = 1 then s.getD (l.length / 2) 0
          else (s.getD (l.length / 2 - 1) 0 + s.getD (l.length / 2) 0) / 2)) := by
  refine ⟨?_, ?_, ?_⟩
  · have h := mathMin_spec l hne
    simpa [aggregate] using h
  · have hlen : l.length ≠ 0 := fun h0 => hne (List.length_eq_zero.mp h0)
    simp [aggregate, hlen]
  · intro s hs hp
    have hsort : List.insertionSort (· ≤ ·) l = s :=
      List.eq_of_perm_of_sorted ((List.perm_insertionSort _ l).trans hp)
        (List.sorted_insertionSort _ l) hs
    have hlen : s.length = l.length := hp.length_eq.symm
    have hne' : l.isEmpty = false := by
      cases l with
      | nil => exact absurd rfl hne
      | cons a t => rfl
    simp only [aggregate, median, hne', Bool.false_eq_true, if_false, hsort, hlen]
    rw [if_neg (by decide), if_neg (by decide)]
    by_cases hodd : l.length % 2 = 1 <;> simp [hodd]

/-- Witness for C1 at the concrete candidate list `[3, 1, 2]`. -/
theorem aggregate_policies_correct_witness :
    (∃ m, aggregate [3, 1, 2] "min" = some m ∧ m ∈ ([3, 1, 2] : List ℚ) ∧
      ∀ x ∈ ([3, 1, 2] : List ℚ), m ≤ x) ∧
    aggregate [3, 1, 2] "avg" = some 2 ∧
    aggregate [3, 1, 2] "median" = some 2 := by
  have h := aggregate_policies_correct [3, 1, 2] (by decide) (by norm_num)
  refine ⟨h.1, ?_, ?_⟩
  · have h2 := h.2.1
    norm_num at h2
    simpa using h2
  · have h3 := h.2.2 [1, 2, 3] (by norm_num) (by decide)
    norm_num at h3
    simpa using h3

/-- C2: valuation computes per offer `costPerUnit = cashPrice / unitQuantity`
and `costPerUnderlyingBlock = cashPrice / (unitQuantity * rate) * 1e9`; for
the offers `[(cash 10, qty 500), (cash 35, qty 2000)]` and rate 5000 the
cost-per-unit values are `[0.02, 0.0175]` and the best index is 1. -/
theorem valuation_formulas_and_example :
    (∀ (nm : String) (cash qty rate : ℚ),
      (valueRow ⟨nm, cash, none, qty⟩ rate).perPLEX = cash / qty ∧
      (valueRow ⟨nm, cash, none, qty⟩ rate).perBillion =
        cash / (qty * rate) * 1000000000) ∧
    (packRows [⟨"A", 10, none, 500⟩, ⟨"B", 35, none, 2000⟩] 5000).map (·.perPLEX) =
      [1 / 50, 7 / 400] ∧
    indexOfStrictMin
      ((packRows [⟨"A", 10, none, 500⟩, ⟨"B", 35, none, 2000⟩] 5000).map (·.perPLEX)) = 1 := by
  refine ⟨fun nm cash qty rate => ⟨rfl, rfl⟩, ?_, ?_⟩
  · norm_num [packRows, valueRow, salePrice]
  · norm_num [packRows, valueRow, salePrice, indexOfStrictMin, iosmAux, eps]

/-- C5: the best-index selector scans left to right and replaces the running
minimum only when a candidate is smaller by more than epsilon, so ties within
epsilon are won by the earliest element: `[5,3,3,8] ↦ 1`, `[4] ↦ 0`,
`[3.0000000001, 3.0] ↦ 0`; the two-element case states the replacement rule
exactly. -/
theorem indexOfStrictMin_examples :
    indexOfStrictMin [5, 3, 3, 8] = 1 ∧
    indexOfStrictMin [4] = 0 ∧
    indexOfStrictMin [30000000001 / 10000000000, 3] = 0 ∧
    ∀ a b : ℚ, indexOfStrictMin [a, b] = if b < a - eps then 1 else 0 := by
  refine ⟨?_, rfl, ?_, ?_⟩
  · norm_num [indexOfStrictMin, iosmAux, eps]
  · norm_num [indexOfStrictMin, iosmAux, eps]
  · intro a b
    by_cases h : b < a - eps <;> simp [indexOfStrictMin, iosmAux, h]

/-- C6 counterexample: on the empty list the selector does not return
None/absent — the JS loop body never runs and the initial `bestIdx = 0` is
returned, so the caller receives the index 0. -/
theorem indexOfStrictMin_empty_returns_zero :
    indexOfStrictMin ([] : List ℚ) = 0 := rfl

/-- C6 amended: on the empty input list `indexOfStrictMin` returns the index
0 (the initialised `bestIdx`), not an absent value; in practice callers never
reach it with an empty list because the render functions early-return a
status on an empty row set. -/
theorem indexOfStrictMin_empty_amended :
    indexOfStrictMin ([] : List ℚ) = 0 ∧
    ∀ r : Option ℚ, renderValueTable [] r = RenderResult.status "No packs loaded." :=
  ⟨rfl, fun _ => rfl⟩

/-- C9: every derived metric uses `sale_price_usd` whenever it is present —
regardless of its numeric value, including zero — and falls back to
`price_usd` only when the sale price is absent; the part_008 ternary
(`!= null`) agrees with the script.js nullish coalescing. -/
theorem sale_price_preference (p : Pack) (rate v : ℚ) :
    (p.sale_price_usd = some v →
      (valueRow p rate).price = v ∧
      (valueRow p rate).perPLEX = v / p.plex_amount ∧
      (valueRow p rate).perBillion = v / (p.plex_amount * rate) * 1000000000) ∧
    (p.sale_price_usd = none →
      (valueRow p rate).price = p.price_usd ∧
      (valueRow p rate).perPLEX = p.price_usd / p.plex_amount ∧
      (valueRow p rate).perBillion = p.price_usd / (p.plex_amount * rate) * 1000000000) ∧
    salePrice008 p.sale_price_usd p.price_usd = salePrice p.sale_price_usd p.price_usd := by
  refine ⟨?_, ?_, ?_⟩
  · intro h
    exact ⟨by simp [valueRow, salePrice, h], by simp [valueRow, salePrice, h],
      by simp [valueRow, salePrice, h]⟩
  · intro h
    exact ⟨by simp [valueRow, salePrice, h], by simp [valueRow, salePrice, h],
      by simp [valueRow, salePrice, h]⟩
  · cases hs : p.sale_price_usd <;> simp [salePrice, salePrice008, hs]

/-- Witness for C9 at a pack whose sale price is present and equal to 0. -/
theorem sale_price_preference_witness :
    (valueRow ⟨"pk", 20, some 0, 500⟩ 5000).price = 0 ∧
    (valueRow ⟨"pk", 20, some 0, 500⟩ 5000).perPLEX = 0 / (500 : ℚ) ∧
    (valueRow ⟨"pk", 20, some 0, 500⟩ 5000).perBillion =
      0 / ((500 : ℚ) * 5000) * 1000000000 :=
  (sale_price_preference ⟨"pk", 20, some 0, 500⟩ 5000 0).1 rfl

/-- C10: on every non-empty list `indexOfStrictMin` returns an in-bounds
index whose element is epsilon-minimal: it is at most every element of the
list plus `1e-9`. -/
theorem indexOfStrictMin_in_bounds_eps_minimal (arr : List ℚ) (h : arr ≠ []) :
    indexOfStrictMin arr < arr.length ∧
    ∀ j, j < arr.length → arr.getD (indexOfStrictMin arr) 0 ≤ arr.getD j 0 + eps :=
  indexOfStrictMin_spec arr h

/-- Witness for C10 at the concrete list `[5, 3, 3, 8]`. -/
theorem indexOfStrictMin_in_bounds_eps_minimal_witness :
    indexOfStrictMin [5, 3, 3, 8] < ([5, 3, 3, 8] : List ℚ).length ∧
    ([5, 3, 3, 8] : List ℚ).getD (indexOfStrictMin [5, 3, 3, 8]) 0 ≤
      ([5, 3, 3, 8] : List ℚ).getD 3 0 + eps :=
  ⟨(indexOfStrictMin_in_bounds_eps_minimal [5, 3, 3, 8] (List.cons_ne_nil _ _)).1,
    (indexOfStrictMin_in_bounds_eps_minimal [5, 3, 3, 8] (List.cons_ne_nil _ _)).2
      3 (by norm_num)⟩

/-- C3 counterexample: in the part_000 variant two rows with exactly equal
metric values are BOTH flagged best — `|v - min| < 1e-12` holds for every
tied row — so a ranking pass over two identical packs marks two rows best
for the dollars-per-PLEX metric, not one. -/
theorem band_marking_double_best :
    ((computeRows000 [⟨"A", 10, none, 500⟩, ⟨"A", 10, none, 500⟩]
      (some 5000)).marksA).count true = 2 := by
  norm_num [computeRows000, row000, salePrice, bandMarks, mathMin,
    RenderResult.marksA]

/-- C3 amended: under the `indexOfStrictMin`-based render (script.js
`renderValueTable`) exactly one row per metric is flagged best on every
non-empty row set; on an empty row set ranking is skipped and a status
message is surfaced in both variants; under the part_000 band marking
(`|v - min| < 1e-12`) at least one row per metric is flagged, but exact ties
flag every tied row (more than one), as the counterexample shows. -/
theorem best_marking_amended (packs : List Pack) (r : ℚ) (hne : packs ≠ [])
    (hr : ¬ r = 0) :
    ((renderValueTable packs (some r)).marksA).count true = 1 ∧
    ((renderValueTable packs (some r)).marksB).count true = 1 ∧
    (∀ ro : Option ℚ,
      renderValueTable [] ro = RenderResult.status "No packs loaded." ∧
      computeRows000 [] ro = RenderResult.status "No packs loaded.") ∧
    1 ≤ ((computeRows000 packs (some r)).marksA).count true := by
  have hpe : packs.isEmpty = false := by
    cases packs with
    | nil => exact absurd rfl hne
    | cons a t => rfl
  have hmapsA : (packRows packs r).map (·.perPLEX) ≠ [] := by
    simp [packRows, hne]
  have hmapsB : (packRows packs r).map (·.perBillion) ≠ [] := by
    simp [packRows, hne]
  have hA := (indexOfStrictMin_spec _ hmapsA).1
  have hB := (indexOfStrictMin_spec _ hmapsB).1
  rw [List.length_map] at hA hB
  have htab : renderValueTable packs (some r) = RenderResult.table (packRows packs r)
      ((List.range (packRows packs r).length).map
        (fun i => i == indexOfStrictMin ((packRows packs r).map (·.perPLEX))))
      ((List.range (packRows packs r).length).map
        (fun i => i == indexOfStrictMin ((packRows packs r).map (·.perBillion)))) := by
    simp only [renderValueTable, hpe, Bool.false_eq_true, if_false, if_neg hr]
  refine ⟨?_, ?_, fun ro => ⟨rfl, rfl⟩, ?_⟩
  · rw [htab]
    simp only [RenderResult.marksA]
    rw [count_range_marks]
    simp [hA]
  · rw [htab]
    simp only [RenderResult.marksB]
    rw [count_range_marks]
    simp [hB]
  · have hvals : (packs.map (fun p => row000 p r)).map (·.perPLEX) ≠ [] := by
      simp [hne]
    obtain ⟨m, hm, hmem, _⟩ := mathMin_spec _ hvals
    have htab0 : computeRows000 packs (some r) = RenderResult.table
        ((packs.map (fun p => row000 p r)).map
          (fun q => ⟨q.price, q.perPLEX, q.cashPerISK⟩))
        (bandMarks ((packs.map (fun p => row000 p r)).map (·.perPLEX)))
        (bandMarks ((packs.map (fun p => row000 p r)).map (·.cashPerISK))) := by
      simp only [computeRows000, hpe, Bool.false_eq_true, if_false, if_neg hr]
    rw [htab0]
    simp only [RenderResult.marksA]
    have hmarked : true ∈ bandMarks ((packs.map (fun p => row000 p r)).map (·.perPLEX)) := by
      rw [bandMarks, hm]
      refine List.mem_map.mpr ⟨m, hmem, ?_⟩
      norm_num
    exact List.count_pos_iff.mpr hmarked

/-- Witness for the amended C3 at a single concrete pack and rate 5000. -/
theorem best_marking_amended_witness :
    ((renderValueTable [⟨"A", 10, none, 500⟩] (some 5000)).marksA).count true = 1 ∧
    ((renderValueTable [⟨"A", 10, none, 500⟩] (some 5000)).marksB).count true = 1 ∧
    renderValueTable [] none = RenderResult.status "No packs loaded." ∧
    1 ≤ ((computeRows000 [⟨"A", 10, none, 500⟩] (some 5000)).marksA).count true :=
  ⟨(best_marking_amended [⟨"A", 10, none, 500⟩] 5000 (List.cons_ne_nil _ _)
      (by norm_num)).1,
   (best_marking_amended [⟨"A", 10, none, 500⟩] 5000 (List.cons_ne_nil _ _)
      (by norm_num)).2.1,
   ((best_marking_amended [⟨"A", 10, none, 500⟩] 5000 (List.cons_ne_nil _ _)
      (by norm_num)).2.2.1 none).1,
   (best_marking_amended [⟨"A", 10, none, 500⟩] 5000 (List.cons_ne_nil _ _)
      (by norm_num)).2.2.2⟩

/-- C4 counterexample: the Fuzzwork variant stores the selected sell
statistic with no validation, so a feed whose statistics are all zero makes
`fetchPlexISK` produce 0 — which the source assigns to `plexISK` directly,
without any error — contradicting the claim that every configured source
validates positivity before storing. -/
theorem fuzzwork_stores_zero_rate :
    fetchPlexISK ⟨0, 0, 0⟩ "median" = 0 := by
  norm_num [fetchPlexISK]

/-- C4 amended: the ESI-based fetchers validate before storing — whenever
`fetchPLEXFromESIPrices` (script.js) or the aggregate-then-check tail of
`fetchPlexISK_ESI` (part_003) succeeds, the resulting rate is strictly
positive — but the Fuzzwork variant of part_003 stores the selected sell
statistic unvalidated, so an all-zero feed silently yields a stored rate of
0 there. -/
theorem rate_validation_amended (avg adj : Option ℚ) (prices : List ℚ)
    (agg : String) (v w : ℚ)
    (h1 : fetchPLEXFromESIPrices avg adj = Except.ok v)
    (h2 : fetchAggregateESI prices agg = Except.ok w) :
    0 < v ∧ 0 < w ∧ fetchPlexISK ⟨0, 0, 0⟩ "min" = 0 := by
  refine ⟨?_, ?_, by norm_num [fetchPlexISK]⟩
  · rcases avg with _ | a <;> rcases adj with _ | b <;>
      simp only [fetchPLEXFromESIPrices] at h1
    · simp at h1
    · by_cases hb : 0 < b
      · simp [hb, not_le.mpr hb] at h1
        linarith
      · simp [hb] at h1
    · by_cases ha : 0 < a
      · simp [ha, not_le.mpr ha] at h1
        linarith
      · simp [ha] at h1
    · by_cases ha : 0 < a
      · simp [ha, not_le.mpr ha] at h1
        linarith
      · by_cases hb : 0 < b
        · simp [ha, hb, not_le.mpr hb] at h1
          linarith
        · simp [ha, hb] at h1
  · unfold fetchAggregateESI at h2
    rcases hagg : aggregate prices agg with _ | u <;> rw [hagg] at h2
    · simp at h2
    · by_cases hu : u ≤ 0
      · simp [hu] at h2
      · simp [hu] at h2
        have := lt_of_not_le hu
        linarith

/-- Witness for the amended C4: a positive average price and a single
positive candidate under the `min` policy. -/
theorem rate_validation_amended_witness :
    (0 : ℚ) < 5 ∧ (0 : ℚ) < 2 ∧ fetchPlexISK ⟨0, 0, 0⟩ "min" = 0 :=
  rate_validation_amended (some 5) none [2] "min" 5 2
    (by norm_num [fetchPLEXFromESIPrices])
    (by norm_num [fetchAggregateESI, aggregate, mathMin])

/-- C7 counterexample: a non-404 HTTP failure on page 2 does NOT keep the
candidates collected from page 1 — the loop throws, the whole fetch aborts
with an error and the collected price 5 is discarded, contradicting the
claim that a failing page after the first only terminates pagination. -/
theorem pagination_error_discards_partial :
    fetchPlexFromESI_MinSell [PageResult.ok none [5], PageResult.httpError 500] =
      Except.error "ESI orders HTTP 500 (page 2)" := by
  norm_num [fetchPlexFromESI_MinSell, fetchLoop]
  decide

/-- C7 amended: a 404 or an empty page after the first terminates pagination
and the candidates collected from earlier pages are kept and aggregated; but
a non-404 HTTP failure on any page — the first or a later one — throws and
aborts the whole rate fetch, discarding collected candidates, and in the
`Promise.all` variant of part_003 any failing later page likewise rejects
the whole batch. -/
theorem pagination_amended (l : List ℚ) (hne : l ≠ []) (hpos : ∀ x ∈ l, 0 < x) :
    (∃ m, fetchPlexFromESI_MinSell [PageResult.ok none l, PageResult.notFound] =
        Except.ok m ∧ m ∈ l ∧ ∀ x ∈ l, m ≤ x) ∧
    (∃ m, fetchPlexFromESI_MinSell [PageResult.ok none l, PageResult.ok none []] =
        Except.ok m ∧ m ∈ l ∧ ∀ x ∈ l, m ≤ x) ∧
    (∀ s : Nat, ∃ e, fetchPlexFromESI_MinSell [PageResult.httpError s] =
      Except.error e) ∧
    (∀ s : Nat, ∃ e,
      fetchPlexFromESI_MinSell [PageResult.ok none l, PageResult.httpError s] =
        Except.error e) ∧
    (∀ (e : String) (ps : List (Except String (List ℚ))),
      allPages (Except.ok l :: Except.error e :: ps) = Except.error e) := by
  have hfil : l.filter (fun p => decide (0 < p)) = l :=
    List.filter_eq_self.mpr (fun a ha => by simpa using hpos a ha)
  have hie : l.isEmpty = false := by
    cases l with
    | nil => exact absurd rfl hne
    | cons a t => rfl
  obtain ⟨m, hm, hmem, hle⟩ := mathMin_spec l hne
  refine ⟨⟨m, ?_, hmem, hle⟩, ⟨m, ?_, hmem, hle⟩, ?_, ?_, fun e ps => rfl⟩
  · simp [fetchPlexFromESI_MinSell, fetchLoop, hie, hfil, hm]
  · simp [fetchPlexFromESI_MinSell, fetchLoop, hie, hfil, hm]
  · intro s
    refine ⟨"ESI orders HTTP " ++ toString s ++ " (page " ++ toString 1 ++ ")", ?_⟩
    simp [fetchPlexFromESI_MinSell, fetchLoop]
  · intro s
    refine ⟨"ESI orders HTTP " ++ toString s ++ " (page " ++ toString 2 ++ ")", ?_⟩
    simp [fetchPlexFromESI_MinSell, fetchLoop, hie, hfil]

/-- Witness for the amended C7 at the concrete page-1 price list `[5, 7]`. -/
theorem pagination_amended_witness :
    (∃ m, fetchPlexFromESI_MinSell [PageResult.ok none [5, 7], PageResult.notFound] =
        Except.ok m ∧ m ∈ ([5, 7] : List ℚ) ∧ ∀ x ∈ ([5, 7] : List ℚ), m ≤ x) ∧
    (∃ m, fetchPlexFromESI_MinSell [PageResult.ok none [5, 7], PageResult.ok none []] =
        Except.ok m ∧ m ∈ ([5, 7] : List ℚ) ∧ ∀ x ∈ ([5, 7] : List ℚ), m ≤ x) ∧
    (∃ e, fetchPlexFromESI_MinSell [PageResult.httpError 502] = Except.error e) ∧
    (∃ e, fetchPlexFromESI_MinSell [PageResult.ok none [5, 7], PageResult.httpError 502] =
      Except.error e) ∧
    allPages [Except.ok [5, 7], Except.error "boom"] = Except.error "boom" :=
  ⟨(pagination_amended [5, 7] (List.cons_ne_nil _ _) (by norm_num)).1,
   (pagination_amended [5, 7] (List.cons_ne_nil _ _) (by norm_num)).2.1,
   (pagination_amended [5, 7] (List.cons_ne_nil _ _) (by norm_num)).2.2.1 502,
   (pagination_amended [5, 7] (List.cons_ne_nil _ _) (by norm_num)).2.2.2.1 502,
   (pagination_amended [5, 7] (List.cons_ne_nil _ _) (by norm_num)).2.2.2.2 "boom" []⟩

/-- C8 counterexample: a pack with a missing quantity (qty resolves to 0) is
not treated as a data error — it still produces a row, with a non-finite
(Infinity/NaN in JS, `none` here) dollars-per-PLEX metric, and there is no
per-row flag or exclusion from ranking. -/
theorem zero_quantity_row_not_excluded :
    (renderPacksRows [⟨20, none, some 1000, none⟩, ⟨10, none, none, none⟩] 5000).length = 2 ∧
    ((renderPacksRows [⟨20, none, some 1000, none⟩, ⟨10, none, none, none⟩] 5000).getD 1
      ⟨0, 0, none, none⟩).usdPerPLEX = none := by
  constructor
  · rfl
  · norm_num [renderPacksRows, salePrice, qty6, jsDiv]

/-- C8 amended: the divisions are not guarded — every pack and every plan
yields a row regardless of its divisor, a zero or missing quantity produces
a non-finite metric for that row (which still participates in the row set
and ranking input), and `monthsFromLabel` defaults to 1 only for labels with
no digits, while an explicit zero-duration label yields `months = 0` and an
unguarded division; valuation of the remaining rows does proceed. -/
theorem unguarded_division_amended (packs : List Pack6) (rate : ℚ) (p : Pack6)
    (plans : List Plan) (b : ℚ) (hp : qty6 p = 0) :
    (renderPacksRows packs rate).length = packs.length ∧
    ((renderPacksRows (packs ++ [p]) rate).getD packs.length
      ⟨0, 0, none, none⟩).usdPerPLEX = none ∧
    (omegaRows plans b).length = plans.length ∧
    monthsFromLabel "0 Months" = 0 ∧
    monthsFromLabel "No duration" = 1 := by
  refine ⟨by simp [renderPacksRows], ?_, by simp [omegaRows], ?_, ?_⟩
  · have hlen : (renderPacksRows packs rate).length = packs.length := by
      simp [renderPacksRows]
    rw [renderPacksRows, List.map_append]
    rw [List.getD_eq_getElem?_getD, List.getElem?_append_right (by simp)]
    simp [renderPacksRows, jsDiv, hp]
  · decide
  · decide

/-- Witness for the amended C8 at a concrete valid pack, a quantity-less
pack, and a three-month plan. -/
theorem unguarded_division_amended_witness :
    (renderPacksRows [⟨20, none, some 1000, none⟩] 5000).length = 1 ∧
    ((renderPacksRows [⟨20, none, some 1000, none⟩, ⟨10, none, none, none⟩] 5000).getD 1
      ⟨0, 0, none, none⟩).usdPerPLEX = none ∧
    (omegaRows [⟨"3 Months", 45, 1500⟩] (1 / 50)).length = 1 ∧
    monthsFromLabel "0 Months" = 0 ∧
    monthsFromLabel "No duration" = 1 :=
  unguarded_division_amended [⟨20, none, some 1000, none⟩] 5000
    ⟨10, none, none, none⟩ [⟨"3 Months", 45, 1500⟩] (1 / 50) rfl

end EveValue
